import Mathlib

/-!
Verification of the navtex decoder (fventuri/navtex, `src/navtex_rx.cpp`).

The development shallowly embeds the decoder's character-level core:
the CCIR 476 constant-weight code (`check_bits`, `bytes_to_code`,
`valid_char_at`), the bit-confidence repair `flip_smallest_bit`, the
FEC combiner `process_bytes`, the frame synchroniser
`find_alpha_characters`, the per-pulse state step `handle_bit_value`,
the character dispatcher `process_char`, and the message-timeout
subsystem `process_timeout` / `flush_message`.

C soft-bit values (`int`) are modelled as `Int`; the bit buffer
`m_bit_values` is a `List Int` read through `List.getD` (all source
reads are in range, so the default is never observable).  7-bit codes
are `Nat`.
-/

namespace Navtex

/-! ### CCIR 476 control codes (navtex_rx.cpp lines 598-604) -/

def code_ltrs : Nat := 0x5a
def code_figs : Nat := 0x36
def code_alpha : Nat := 0x0f
def code_beta : Nat := 0x33
def code_char32 : Nat := 0x6a
def code_rep : Nat := 0x66
def char_bell : Nat := 0x07

/-! ### CCIR476::check_bits (lines 1110-1118)

The source counts set bits with Kernighan's loop
`while (v != 0) { bc++; v &= v - 1; }`.  Each iteration strictly
decreases `v` (clearing its lowest set bit), so running the loop with
structural fuel `v` computes the same value; `count_bits_aux f v` is
the loop for any `f ≥ v`. -/

def count_bits_aux : Nat → Nat → Nat
  | _, 0 => 0
  | 0, _ + 1 => 0
  | f + 1, v + 1 => count_bits_aux f ((v + 1) &&& v) + 1

def check_bits (v : Nat) : Bool := count_bits_aux v v == 4

/-- Specification-side popcount of a 7-bit value: the number of set
bits among bit positions 0..6. -/
def popcount7 (v : Nat) : Nat := (List.range 7).countP (fun i => v.testBit i)

/-! ### CCIR476::bytes_to_code (lines 1094-1101) and
CCIR476::valid_char_at (lines 1121-1130)

`bytes_to_code` packs the signs of the next 7 soft bits into an
integer, LSB first: `code |= ((pos[i] > 0) << i)`.  `valid_char_at`
counts the strictly positive soft bits and accepts exactly 4. -/

def bytes_to_code (pos : List Int) : Nat :=
  (List.range 7).foldl
    (fun code i => code ||| ((if pos.getD i 0 > 0 then 1 else 0) <<< i)) 0

def valid_char_at (pos : List Int) : Bool :=
  (List.range 7).countP (fun i => decide (pos.getD i 0 > 0)) == 4

/-- Claim C6, second half, stated over the valid-code table domain:
the number of `check_bits`-valid 7-bit values. -/
def valid_code_count : Nat := (List.range 128).countP check_bits

set_option maxHeartbeats 1000000 in
/-- Claim C6: for every 7-bit value `v`, `check_bits v` holds iff `v`
has exactly 4 set bits, and exactly 35 of the 128 seven-bit values are
valid codes. -/
theorem check_bits_popcount :
    (∀ v : Fin 128, check_bits v.val = true ↔ popcount7 v.val = 4) ∧
      valid_code_count = 35 := by
  constructor
  · decide
  · decide

set_option maxHeartbeats 3200000 in
/-- Claim C10: `valid_char_at` agrees with `check_bits ∘ bytes_to_code`
on every soft-bit array: the count of strictly positive entries equals
the popcount of the packed code. -/
theorem valid_char_at_iff_check_bits (pos : List Int) :
    valid_char_at pos = check_bits (bytes_to_code pos) := by
  have hr : List.range 7 = [0, 1, 2, 3, 4, 5, 6] := rfl
  by_cases h0 : pos.getD 0 0 > 0 <;>
  by_cases h1 : pos.getD 1 0 > 0 <;>
  by_cases h2 : pos.getD 2 0 > 0 <;>
  by_cases h3 : pos.getD 3 0 > 0 <;>
  by_cases h4 : pos.getD 4 0 > 0 <;>
  by_cases h5 : pos.getD 5 0 > 0 <;>
  by_cases h6 : pos.getD 6 0 > 0 <;>
    simp only [valid_char_at, bytes_to_code, hr, List.countP_cons, List.countP_nil,
      List.foldl_cons, List.foldl_nil, h0, h1, h2, h3, h4, h5, h6,
      decide_eq_true_eq, if_pos, if_neg, not_false_iff, decide_True, decide_False] <;>
    rfl

/-! ### flip_smallest_bit (lines 868-898)

The source scans the 7 soft bits keeping, for the negative values, the
largest one seen (`min_zero`, sentinel `INT_MIN`) with its position,
and for the non-negative values the smallest one (`min_one`, sentinel
`INT_MAX`) with its position, plus the two counters
`count_zero = 0` / `count_one = 1` (note the source initialises
`count_one` to 1).  The `INT_MIN` / `INT_MAX` sentinels, which compare
below / above every stored value, are rendered as `none`. -/

structure FlipScan where
  min_zero : Option (Nat × Int)
  min_one : Option (Nat × Int)
  count_zero : Nat
  count_one : Nat
deriving DecidableEq

def flip_scan_step (pos : List Int) (s : FlipScan) (i : Nat) : FlipScan :=
  let val := pos.getD i 0
  if val < 0 then
    { s with
      count_zero := s.count_zero + 1,
      min_zero :=
        match s.min_zero with
        | none => some (i, val)
        | some pm => if val > pm.2 then some (i, val) else some pm }
  else
    { s with
      count_one := s.count_one + 1,
      min_one :=
        match s.min_one with
        | none => some (i, val)
        | some pm => if val < pm.2 then some (i, val) else some pm }

def flip_scan (pos : List Int) : FlipScan :=
  (List.range 7).foldl (flip_scan_step pos) ⟨none, none, 0, 1⟩

/-- `flip_smallest_bit`: after the scan, if exactly 4 values were
negative, negate the largest (closest-to-zero) negative one; else if
`count_one == 5` (i.e. exactly 4 values were non-negative), negate the
smallest non-negative one; else leave the array unchanged.  The `none`
fallbacks are unreachable (a count of 4 forces a recorded position). -/
def flip_smallest_bit (pos : List Int) : List Int :=
  let s := flip_scan pos
  if s.count_zero = 4 then
    match s.min_zero with
    | some pm => pos.set pm.1 (-(pos.getD pm.1 0))
    | none => pos
  else if s.count_one = 5 then
    match s.min_one with
    | some pm => pos.set pm.1 (-(pos.getD pm.1 0))
    | none => pos
  else pos

def neg_count (pos : List Int) : Nat :=
  (List.range 7).countP (fun i => decide (pos.getD i 0 < 0))

def nonneg_count (pos : List Int) : Nat :=
  (List.range 7).countP (fun i => decide (0 ≤ pos.getD i 0))

/-- Invariant of the `min_zero` tracker over the already-scanned index
list `L`: `none` means no negative value was seen; `some (p, v)` means
`v` is the value at `p`, it is negative, and it is maximal among the
negative values seen. -/
def MZinv (pos : List Int) (L : List Nat) : Option (Nat × Int) → Prop
  | none => ∀ j ∈ L, ¬(pos.getD j 0 < 0)
  | some pm => pm.1 ∈ L ∧ pos.getD pm.1 0 = pm.2 ∧ pm.2 < 0 ∧
      ∀ j ∈ L, pos.getD j 0 < 0 → pos.getD j 0 ≤ pm.2

/-- Invariant of the `min_one` tracker: `some (p, v)` records the
minimal non-negative value seen and its position. -/
def MOinv (pos : List Int) (L : List Nat) : Option (Nat × Int) → Prop
  | none => ∀ j ∈ L, ¬(0 ≤ pos.getD j 0)
  | some pm => pm.1 ∈ L ∧ pos.getD pm.1 0 = pm.2 ∧ 0 ≤ pm.2 ∧
      ∀ j ∈ L, 0 ≤ pos.getD j 0 → pm.2 ≤ pos.getD j 0

theorem flip_scan_step_count_zero (pos : List Int) (s : FlipScan) (i : Nat) :
    (flip_scan_step pos s i).count_zero =
      if pos.getD i 0 < 0 then s.count_zero + 1 else s.count_zero := by
  by_cases hv : pos.getD i 0 < 0 <;> simp [flip_scan_step, hv, -List.getD_eq_getElem?_getD]

theorem flip_scan_step_count_one (pos : List Int) (s : FlipScan) (i : Nat) :
    (flip_scan_step pos s i).count_one =
      if pos.getD i 0 < 0 then s.count_one else s.count_one + 1 := by
  by_cases hv : pos.getD i 0 < 0 <;> simp [flip_scan_step, hv, -List.getD_eq_getElem?_getD]

theorem flip_scan_step_mz_neg_none (pos : List Int) (s : FlipScan) (i : Nat)
    (hv : pos.getD i 0 < 0) (hsz : s.min_zero = none) :
    (flip_scan_step pos s i).min_zero = some (i, pos.getD i 0) := by
  simp [flip_scan_step, hv, hsz, -List.getD_eq_getElem?_getD]

theorem flip_scan_step_mz_neg_some (pos : List Int) (s : FlipScan) (i : Nat) (pm : Nat × Int)
    (hv : pos.getD i 0 < 0) (hsz : s.min_zero = some pm) :
    (flip_scan_step pos s i).min_zero =
      if pos.getD i 0 > pm.2 then some (i, pos.getD i 0) else some pm := by
  simp [flip_scan_step, hv, hsz, -List.getD_eq_getElem?_getD]

theorem flip_scan_step_mz_nonneg (pos : List Int) (s : FlipScan) (i : Nat)
    (hv : ¬(pos.getD i 0 < 0)) :
    (flip_scan_step pos s i).min_zero = s.min_zero := by
  simp [flip_scan_step, hv, -List.getD_eq_getElem?_getD]

theorem flip_scan_step_mo_neg (pos : List Int) (s : FlipScan) (i : Nat)
    (hv : pos.getD i 0 < 0) :
    (flip_scan_step pos s i).min_one = s.min_one := by
  simp [flip_scan_step, hv, -List.getD_eq_getElem?_getD]

theorem flip_scan_step_mo_nonneg_none (pos : List Int) (s : FlipScan) (i : Nat)
    (hv : ¬(pos.getD i 0 < 0)) (hso : s.min_one = none) :
    (flip_scan_step pos s i).min_one = some (i, pos.getD i 0) := by
  simp [flip_scan_step, hv, hso, -List.getD_eq_getElem?_getD]

theorem flip_scan_step_mo_nonneg_some (pos : List Int) (s : FlipScan) (i : Nat) (pm : Nat × Int)
    (hv : ¬(pos.getD i 0 < 0)) (hso : s.min_one = some pm) :
    (flip_scan_step pos s i).min_one =
      if pos.getD i 0 < pm.2 then some (i, pos.getD i 0) else some pm := by
  simp [flip_scan_step, hv, hso, -List.getD_eq_getElem?_getD]

theorem MZinv_step (pos : List Int) (L : List Nat) (i : Nat) (s : FlipScan)
    (h : MZinv pos L s.min_zero) :
    MZinv pos (L ++ [i]) (flip_scan_step pos s i).min_zero := by
  by_cases hv : pos.getD i 0 < 0
  · cases hsz : s.min_zero with
    | none =>
      rw [hsz] at h
      rw [flip_scan_step_mz_neg_none pos s i hv hsz]
      refine ⟨List.mem_append_right _ (List.mem_singleton_self i), rfl, hv, ?_⟩
      intro j hj hjn
      rcases List.mem_append.mp hj with hj | hj
      · exact absurd hjn (h j hj)
      · rw [List.mem_singleton.mp hj]
    | some pm =>
      rw [hsz] at h
      obtain ⟨hmem, hval, hneg, hmax⟩ := h
      rw [flip_scan_step_mz_neg_some pos s i pm hv hsz]
      by_cases hgt : pos.getD i 0 > pm.2
      · rw [if_pos hgt]
        refine ⟨List.mem_append_right _ (List.mem_singleton_self i), rfl, hv, ?_⟩
        intro j hj hjn
        rcases List.mem_append.mp hj with hj | hj
        · exact le_of_lt (lt_of_le_of_lt (hmax j hj hjn) hgt)
        · rw [List.mem_singleton.mp hj]
      · rw [if_neg hgt]
        refine ⟨List.mem_append_left _ hmem, hval, hneg, ?_⟩
        intro j hj hjn
        rcases List.mem_append.mp hj with hj | hj
        · exact hmax j hj hjn
        · rw [List.mem_singleton.mp hj]; exact le_of_not_lt hgt
  · rw [flip_scan_step_mz_nonneg pos s i hv]
    cases hsz : s.min_zero with
    | none =>
      rw [hsz] at h
      intro j hj
      rcases List.mem_append.mp hj with hj | hj
      · exact h j hj
      · rw [List.mem_singleton.mp hj]; exact hv
    | some pm =>
      rw [hsz] at h
      obtain ⟨hmem, hval, hneg, hmax⟩ := h
      refine ⟨List.mem_append_left _ hmem, hval, hneg, ?_⟩
      intro j hj hjn
      rcases List.mem_append.mp hj with hj | hj
      · exact hmax j hj hjn
      · rw [List.mem_singleton.mp hj] at hjn; exact absurd hjn hv

theorem MOinv_step (pos : List Int) (L : List Nat) (i : Nat) (s : FlipScan)
    (h : MOinv pos L s.min_one) :
    MOinv pos (L ++ [i]) (flip_scan_step pos s i).min_one := by
  by_cases hv : pos.getD i 0 < 0
  · rw [flip_scan_step_mo_neg pos s i hv]
    cases hso : s.min_one with
    | none =>
      rw [hso] at h
      intro j hj
      rcases List.mem_append.mp hj with hj | hj
      · exact h j hj
      · rw [List.mem_singleton.mp hj]; exact Int.not_le.mpr hv
    | some pm =>
      rw [hso] at h
      obtain ⟨hmem, hval, hnn, hmin⟩ := h
      refine ⟨List.mem_append_left _ hmem, hval, hnn, ?_⟩
      intro j hj hjn
      rcases List.mem_append.mp hj with hj | hj
      · exact hmin j hj hjn
      · rw [List.mem_singleton.mp hj] at hjn; exact absurd hjn (Int.not_le.mpr hv)
  · have hnn : 0 ≤ pos.getD i 0 := Int.not_lt.mp hv
    cases hso : s.min_one with
    | none =>
      rw [hso] at h
      rw [flip_scan_step_mo_nonneg_none pos s i hv hso]
      refine ⟨List.mem_append_right _ (List.mem_singleton_self i), rfl, hnn, ?_⟩
      intro j hj hjn
      rcases List.mem_append.mp hj with hj | hj
      · exact absurd hjn (h j hj)
      · rw [List.mem_singleton.mp hj]
    | some pm =>
      rw [hso] at h
      obtain ⟨hmem, hval, hnn', hmin⟩ := h
      rw [flip_scan_step_mo_nonneg_some pos s i pm hv hso]
      by_cases hlt : pos.getD i 0 < pm.2
      · rw [if_pos hlt]
        refine ⟨List.mem_append_right _ (List.mem_singleton_self i), rfl, hnn, ?_⟩
        intro j hj hjn
        rcases List.mem_append.mp hj with hj | hj
        · exact le_of_lt (lt_of_lt_of_le hlt (hmin j hj hjn))
        · rw [List.mem_singleton.mp hj]
      · rw [if_neg hlt]
        refine ⟨List.mem_append_left _ hmem, hval, hnn', ?_⟩
        intro j hj hjn
        rcases List.mem_append.mp hj with hj | hj
        · exact hmin j hj hjn
        · rw [List.mem_singleton.mp hj]; exact le_of_not_lt hlt

theorem flip_scan_go (pos : List Int) :
    ∀ (l L : List Nat) (s : FlipScan),
      MZinv pos L s.min_zero → MOinv pos L s.min_one →
      MZinv pos (L ++ l) (l.foldl (flip_scan_step pos) s).min_zero ∧
      MOinv pos (L ++ l) (l.foldl (flip_scan_step pos) s).min_one ∧
      (l.foldl (flip_scan_step pos) s).count_zero =
        s.count_zero + l.countP (fun i => decide (pos.getD i 0 < 0)) ∧
      (l.foldl (flip_scan_step pos) s).count_one =
        s.count_one + l.countP (fun i => decide (0 ≤ pos.getD i 0)) := by
  intro l
  induction l with
  | nil => intro L s hz ho; simpa using ⟨hz, ho⟩
  | cons i l ih =>
    intro L s hz ho
    obtain ⟨hz'', ho'', hcz', hco'⟩ :=
      ih (L ++ [i]) (flip_scan_step pos s i) (MZinv_step pos L i s hz) (MOinv_step pos L i s ho)
    refine ⟨?_, ?_, ?_, ?_⟩
    · simpa [List.append_assoc] using hz''
    · simpa [List.append_assoc] using ho''
    · rw [List.foldl_cons, hcz', flip_scan_step_count_zero, List.countP_cons]
      by_cases hv : pos.getD i 0 < 0
      · rw [if_pos hv, if_pos (decide_eq_true hv)]; omega
      · rw [if_neg hv, if_neg ?_]
        · omega
        · simpa using hv
    · rw [List.foldl_cons, hco', flip_scan_step_count_one, List.countP_cons]
      by_cases hv : pos.getD i 0 < 0
      · rw [if_pos hv, if_neg ?_]
        · omega
        · simpa using Int.not_le.mpr hv
      · rw [if_neg hv, if_pos (decide_eq_true (Int.not_lt.mp hv))]; omega

theorem flip_scan_fields (pos : List Int) :
    MZinv pos (List.range 7) (flip_scan pos).min_zero ∧
    MOinv pos (List.range 7) (flip_scan pos).min_one ∧
    (flip_scan pos).count_zero = neg_count pos ∧
    (flip_scan pos).count_one = 1 + nonneg_count pos := by
  have h0z : MZinv pos [] (none : Option (Nat × Int)) := by
    intro j hj; exact absurd hj (List.not_mem_nil j)
  have h0o : MOinv pos [] (none : Option (Nat × Int)) := by
    intro j hj; exact absurd hj (List.not_mem_nil j)
  obtain ⟨hz, ho, hcz, hco⟩ :=
    flip_scan_go pos (List.range 7) [] ⟨none, none, 0, 1⟩ h0z h0o
  refine ⟨by simpa using hz, by simpa using ho, ?_, ?_⟩
  · simpa [neg_count] using hcz
  · simpa [nonneg_count] using hco

/-- Claim C4, counterexample: on `[1,1,1,1,1,-1,-1]` the packed code
`0x1f` has five ones and is not `check_bits`-valid, yet
`flip_smallest_bit` leaves the array unchanged (the claim demands that
the positive soft bit closest to zero be negated, which would change
the array since every entry is nonzero).  The source initialises
`count_one = 1`, so with five positive entries `count_one` ends at 6,
not 5, and neither flip branch fires. -/
theorem flip_smallest_bit_five_ones_cex :
    flip_smallest_bit [1, 1, 1, 1, 1, -1, -1] = [1, 1, 1, 1, 1, -1, -1] ∧
    popcount7 (bytes_to_code [1, 1, 1, 1, 1, -1, -1]) = 5 ∧
    check_bits (bytes_to_code [1, 1, 1, 1, 1, -1, -1]) = false ∧
    ([1, 1, 1, 1, 1, -1, -1] : List Int).all (fun v => v != 0) = true := by
  refine ⟨?_, by decide, by decide, by decide⟩
  decide

/-- Claim C4, amended: `flip_smallest_bit` branches on the signs of
the soft values, not on the bits of the packed code, and with an
off-by-one in the positive counter.  If exactly 4 of the 7 entries are
negative it negates a maximal (closest-to-zero) negative entry; else
if exactly 4 entries are non-negative (the source counter
`count_one`, initialised to 1, then equals 5) it negates a minimal
non-negative entry; in every other case — including a packed code
with five ones — it leaves the array unchanged. -/
theorem flip_smallest_bit_sign_cases (pos : List Int) (h : pos.length = 7) :
    (neg_count pos = 4 →
      ∃ i, i < 7 ∧ pos.getD i 0 < 0 ∧
        (∀ j, j < 7 → pos.getD j 0 < 0 → pos.getD j 0 ≤ pos.getD i 0) ∧
        flip_smallest_bit pos = pos.set i (-(pos.getD i 0))) ∧
    (neg_count pos ≠ 4 → nonneg_count pos = 4 →
      ∃ i, i < 7 ∧ 0 ≤ pos.getD i 0 ∧
        (∀ j, j < 7 → 0 ≤ pos.getD j 0 → pos.getD i 0 ≤ pos.getD j 0) ∧
        flip_smallest_bit pos = pos.set i (-(pos.getD i 0))) ∧
    (neg_count pos ≠ 4 → nonneg_count pos ≠ 4 → flip_smallest_bit pos = pos) := by
  obtain ⟨hz, ho, hcz, hco⟩ := flip_scan_fields pos
  refine ⟨?_, ?_, ?_⟩
  · intro hn4
    cases hmz : (flip_scan pos).min_zero with
    | none =>
      rw [hmz] at hz
      have hpos : 0 < (List.range 7).countP (fun i => decide (pos.getD i 0 < 0)) := by
        have : neg_count pos = 4 := hn4
        unfold neg_count at this
        omega
      obtain ⟨j, hj, hjp⟩ := List.countP_pos_iff.mp hpos
      exact absurd (of_decide_eq_true hjp) (hz j hj)
    | some pm =>
      rw [hmz] at hz
      obtain ⟨hmem, hval, hneg, hmax⟩ := hz
      refine ⟨pm.1, List.mem_range.mp hmem, by rw [hval]; exact hneg, ?_, ?_⟩
      · intro j hj hjn
        have := hmax j (List.mem_range.mpr hj) hjn
        rw [hval]; exact this
      · simp only [flip_smallest_bit]
        rw [if_pos (by rw [hcz]; exact hn4), hmz]
  · intro hn4 ho4
    cases hmo : (flip_scan pos).min_one with
    | none =>
      rw [hmo] at ho
      have hpos : 0 < (List.range 7).countP (fun i => decide (0 ≤ pos.getD i 0)) := by
        have : nonneg_count pos = 4 := ho4
        unfold nonneg_count at this
        omega
      obtain ⟨j, hj, hjp⟩ := List.countP_pos_iff.mp hpos
      exact absurd (of_decide_eq_true hjp) (ho j hj)
    | some pm =>
      rw [hmo] at ho
      obtain ⟨hmem, hval, hnn, hmin⟩ := ho
      refine ⟨pm.1, List.mem_range.mp hmem, by rw [hval]; exact hnn, ?_, ?_⟩
      · intro j hj hjn
        have := hmin j (List.mem_range.mpr hj) hjn
        rw [hval]; exact this
      · simp only [flip_smallest_bit]
        rw [if_neg (by rw [hcz]; exact hn4), if_pos (by rw [hco, ho4]), hmo]
  · intro hn4 ho4
    simp only [flip_smallest_bit]
    rw [if_neg (by rw [hcz]; exact hn4), if_neg (by rw [hco]; omega)]

/-- Claim C4, witness for the amended theorem: on
`[-5, -4, -3, -2, 1, 2, 3]` exactly 4 entries are negative, so a
maximal negative entry is negated. -/
theorem flip_smallest_bit_sign_cases_witness :
    ∃ i, i < 7 ∧ ([-5, -4, -3, -2, 1, 2, 3] : List Int).getD i 0 < 0 ∧
      (∀ j, j < 7 → ([-5, -4, -3, -2, 1, 2, 3] : List Int).getD j 0 < 0 →
        ([-5, -4, -3, -2, 1, 2, 3] : List Int).getD j 0 ≤
          ([-5, -4, -3, -2, 1, 2, 3] : List Int).getD i 0) ∧
      flip_smallest_bit [-5, -4, -3, -2, 1, 2, 3] =
        ([-5, -4, -3, -2, 1, 2, 3] : List Int).set i
          (-(([-5, -4, -3, -2, 1, 2, 3] : List Int).getD i 0)) :=
  (flip_smallest_bit_sign_cases [-5, -4, -3, -2, 1, 2, 3] rfl).1 (by decide)

/-! ### process_bytes (lines 685-770): the FEC combiner

C passes `&m_bit_values[p]` as a 7-int window; `slice7` extracts that
window and `write7` stores a (possibly flipped) window back.
`process_bytes` returns the source's `success` value, the code handed
to `process_char` (if any), and the bit buffer after the in-place
`flip_smallest_bit` mutations. -/

def slice7 (buf : List Int) (p : Nat) : List Int := (buf.drop p).take 7

def write7 (buf : List Int) (p : Nat) (s : List Int) : List Int :=
  (List.range 7).foldl (fun b i => b.set (p + i) (s.getD i 0)) buf

/-- fec_offset (lines 862-864): the REP copy sits 35 bits earlier. -/
def fec_offset (offset : Int) : Int := offset - 35

structure PBResult where
  success : Int
  decoded : Option Nat
  buf : List Int
deriving DecidableEq

/-- `process_bytes` at cursor `p` (a non-negative C `int`; the source
guard `fec_offset(p) < 0` is `p < 35`). -/
def process_bytes (buf : List Int) (p : Nat) : PBResult :=
  let code := bytes_to_code (slice7 buf p)
  if check_bits code then ⟨1, some code, buf⟩
  else if p < 35 then ⟨-1, none, buf⟩
  else
    let reppos := p - 35
    let rep := bytes_to_code (slice7 buf reppos)
    if check_bits rep then
      if rep = code_rep then ⟨0, none, buf⟩
      else ⟨0, some rep, buf⟩
    else
      let avg := List.zipWith (· + ·) (slice7 buf p) (slice7 buf reppos)
      let calc0 := bytes_to_code avg
      if check_bits calc0 then ⟨-1, some calc0, buf⟩
      else
        let buf1 := write7 buf p (flip_smallest_bit (slice7 buf p))
        let calc1 := bytes_to_code (slice7 buf1 p)
        if check_bits calc1 then ⟨-1, some calc1, buf1⟩
        else
          let buf2 := write7 buf1 reppos (flip_smallest_bit (slice7 buf1 reppos))
          let calc2 := bytes_to_code (slice7 buf2 reppos)
          if check_bits calc2 then ⟨-1, some calc2, buf2⟩
          else
            let avg2 := flip_smallest_bit avg
            let calc3 := bytes_to_code avg2
            if check_bits calc3 then ⟨-1, some calc3, buf2⟩
            else ⟨-2, none, buf2⟩

/-- Claim C1: with `p − 35 ≥ 0`, the FEC combiner tries, in order:
the packed α code (+1); the packed REP code — phase marker 0x66 gives
0 with nothing decoded, otherwise REP is substituted with 0; the
elementwise α+REP sum (−1); α, REP, and the sum each with their
lowest-confidence bit flipped (−1); otherwise −2 with nothing
decoded.  The first `check_bits`-valid candidate wins. -/
theorem process_bytes_order (buf : List Int) (p : Nat) (hp : 35 ≤ p) :
    (check_bits (bytes_to_code (slice7 buf p)) = true →
      process_bytes buf p = ⟨1, some (bytes_to_code (slice7 buf p)), buf⟩) ∧
    (check_bits (bytes_to_code (slice7 buf p)) = false →
      check_bits (bytes_to_code (slice7 buf (p - 35))) = true →
      bytes_to_code (slice7 buf (p - 35)) = code_rep →
      process_bytes buf p = ⟨0, none, buf⟩) ∧
    (check_bits (bytes_to_code (slice7 buf p)) = false →
      check_bits (bytes_to_code (slice7 buf (p - 35))) = true →
      bytes_to_code (slice7 buf (p - 35)) ≠ code_rep →
      process_bytes buf p = ⟨0, some (bytes_to_code (slice7 buf (p - 35))), buf⟩) ∧
    (check_bits (bytes_to_code (slice7 buf p)) = false →
      check_bits (bytes_to_code (slice7 buf (p - 35))) = false →
      check_bits (bytes_to_code (List.zipWith (· + ·) (slice7 buf p) (slice7 buf (p - 35)))) = true →
      process_bytes buf p =
        ⟨-1, some (bytes_to_code (List.zipWith (· + ·) (slice7 buf p) (slice7 buf (p - 35)))), buf⟩) ∧
    (check_bits (bytes_to_code (slice7 buf p)) = false →
      check_bits (bytes_to_code (slice7 buf (p - 35))) = false →
      check_bits (bytes_to_code (List.zipWith (· + ·) (slice7 buf p) (slice7 buf (p - 35)))) = false →
      check_bits (bytes_to_code (slice7 (write7 buf p (flip_smallest_bit (slice7 buf p))) p)) = true →
      process_bytes buf p =
        ⟨-1, some (bytes_to_code (slice7 (write7 buf p (flip_smallest_bit (slice7 buf p))) p)),
          write7 buf p (flip_smallest_bit (slice7 buf p))⟩) ∧
    (check_bits (bytes_to_code (slice7 buf p)) = false →
      check_bits (bytes_to_code (slice7 buf (p - 35))) = false →
      check_bits (bytes_to_code (List.zipWith (· + ·) (slice7 buf p) (slice7 buf (p - 35)))) = false →
      check_bits (bytes_to_code (slice7 (write7 buf p (flip_smallest_bit (slice7 buf p))) p)) = false →
      check_bits (bytes_to_code (slice7
        (write7 (write7 buf p (flip_smallest_bit (slice7 buf p))) (p - 35)
          (flip_smallest_bit (slice7 (write7 buf p (flip_smallest_bit (slice7 buf p))) (p - 35))))
        (p - 35))) = true →
      process_bytes buf p =
        ⟨-1, some (bytes_to_code (slice7
          (write7 (write7 buf p (flip_smallest_bit (slice7 buf p))) (p - 35)
            (flip_smallest_bit (slice7 (write7 buf p (flip_smallest_bit (slice7 buf p))) (p - 35))))
          (p - 35))),
          write7 (write7 buf p (flip_smallest_bit (slice7 buf p))) (p - 35)
            (flip_smallest_bit (slice7 (write7 buf p (flip_smallest_bit (slice7 buf p))) (p - 35)))⟩) ∧
    (check_bits (bytes_to_code (slice7 buf p)) = false →
      check_bits (bytes_to_code (slice7 buf (p - 35))) = false →
      check_bits (bytes_to_code (List.zipWith (· + ·) (slice7 buf p) (slice7 buf (p - 35)))) = false →
      check_bits (bytes_to_code (slice7 (write7 buf p (flip_smallest_bit (slice7 buf p))) p)) = false →
      check_bits (bytes_to_code (slice7
        (write7 (write7 buf p (flip_smallest_bit (slice7 buf p))) (p - 35)
          (flip_smallest_bit (slice7 (write7 buf p (flip_smallest_bit (slice7 buf p))) (p - 35))))
        (p - 35))) = false →
      check_bits (bytes_to_code (flip_smallest_bit
        (List.zipWith (· + ·) (slice7 buf p) (slice7 buf (p - 35))))) = true →
      process_bytes buf p =
        ⟨-1, some (bytes_to_code (flip_smallest_bit
          (List.zipWith (· + ·) (slice7 buf p) (slice7 buf (p - 35))))),
          write7 (write7 buf p (flip_smallest_bit (slice7 buf p))) (p - 35)
            (flip_smallest_bit (slice7 (write7 buf p (flip_smallest_bit (slice7 buf p))) (p - 35)))⟩) ∧
    (check_bits (bytes_to_code (slice7 buf p)) = false →
      check_bits (bytes_to_code (slice7 buf (p - 35))) = false →
      check_bits (bytes_to_code (List.zipWith (· + ·) (slice7 buf p) (slice7 buf (p - 35)))) = false →
      check_bits (bytes_to_code (slice7 (write7 buf p (flip_smallest_bit (slice7 buf p))) p)) = false →
      check_bits (bytes_to_code (slice7
        (write7 (write7 buf p (flip_smallest_bit (slice7 buf p))) (p - 35)
          (flip_smallest_bit (slice7 (write7 buf p (flip_smallest_bit (slice7 buf p))) (p - 35))))
        (p - 35))) = false →
      check_bits (bytes_to_code (flip_smallest_bit
        (List.zipWith (· + ·) (slice7 buf p) (slice7 buf (p - 35))))) = false →
      process_bytes buf p =
        ⟨-2, none,
          write7 (write7 buf p (flip_smallest_bit (slice7 buf p))) (p - 35)
            (flip_smallest_bit (slice7 (write7 buf p (flip_smallest_bit (slice7 buf p))) (p - 35)))⟩) := by
  have hnp : ¬(p < 35) := not_lt.mpr hp
  refine ⟨?_, ?_, ?_, ?_, ?_, ?_, ?_, ?_⟩
  · intro h1
    simp only [process_bytes]
    rw [if_pos h1]
  · intro h1 h2 h3
    simp only [process_bytes]
    rw [if_neg (by simp [h1]), if_neg hnp, if_pos h2, if_pos h3]
  · intro h1 h2 h3
    simp only [process_bytes]
    rw [if_neg (by simp [h1]), if_neg hnp, if_pos h2, if_neg h3]
  · intro h1 h2 h3
    simp only [process_bytes]
    rw [if_neg (by simp [h1]), if_neg hnp, if_neg (by simp [h2]), if_pos h3]
  · intro h1 h2 h3 h4
    simp only [process_bytes]
    rw [if_neg (by simp [h1]), if_neg hnp, if_neg (by simp [h2]), if_neg (by simp [h3]),
      if_pos h4]
  · intro h1 h2 h3 h4 h5
    simp only [process_bytes]
    rw [if_neg (by simp [h1]), if_neg hnp, if_neg (by simp [h2]), if_neg (by simp [h3]),
      if_neg (by simp [h4]), if_pos h5]
  · intro h1 h2 h3 h4 h5 h6
    simp only [process_bytes]
    rw [if_neg (by simp [h1]), if_neg hnp, if_neg (by simp [h2]), if_neg (by simp [h3]),
      if_neg (by simp [h4]), if_neg (by simp [h5]), if_pos h6]
  · intro h1 h2 h3 h4 h5 h6
    simp only [process_bytes]
    rw [if_neg (by simp [h1]), if_neg hnp, if_neg (by simp [h2]), if_neg (by simp [h3]),
      if_neg (by simp [h4]), if_neg (by simp [h5]), if_neg (by simp [h6])]

/-- Claim C1, witness: at cursor 35 over a buffer whose α window packs
the valid code 0x47, the combiner succeeds immediately with +1. -/
theorem process_bytes_order_witness :
    process_bytes (List.replicate 35 0 ++ [1, 1, 1, -1, -1, -1, 1]) 35 =
      ⟨1, some (bytes_to_code (slice7 (List.replicate 35 0 ++ [1, 1, 1, -1, -1, -1, 1]) 35)),
        List.replicate 35 0 ++ [1, 1, 1, -1, -1, -1, 1]⟩ :=
  (process_bytes_order (List.replicate 35 0 ++ [1, 1, 1, -1, -1, -1, 1]) 35 (by decide)).1
    (by decide)

theorem bytes_to_code_fold_lt (pos : List Int) (l : List Nat) :
    ∀ acc, acc < 128 → (∀ i ∈ l, i < 7) →
      (l.foldl (fun code i => code ||| ((if pos.getD i 0 > 0 then 1 else 0) <<< i)) acc) < 128 := by
  induction l with
  | nil => intro acc h _; simpa using h
  | cons i l ih =>
    intro acc hacc hmem
    rw [List.foldl_cons]
    apply ih
    · have hi : i < 7 := hmem i (List.mem_cons_self i l)
      have ht : ((if pos.getD i 0 > 0 then 1 else 0) <<< i) < 128 := by
        by_cases h : pos.getD i 0 > 0
        · rw [if_pos h, Nat.shiftLeft_eq, one_mul]
          have hle : (2 : Nat) ^ i ≤ 2 ^ 6 := Nat.pow_le_pow_right (by norm_num) (by omega)
          omega
        · rw [if_neg h, Nat.shiftLeft_eq, zero_mul]
          norm_num
      exact Nat.or_lt_two_pow (show acc < 2 ^ 7 from hacc) (show _ < 2 ^ 7 from ht)
    · intro j hj; exact hmem j (List.mem_cons_of_mem i hj)

theorem bytes_to_code_lt (pos : List Int) : bytes_to_code pos < 128 :=
  bytes_to_code_fold_lt pos (List.range 7) 0 (by norm_num)
    (fun i hi => List.mem_range.mp hi)

set_option maxHeartbeats 4000000 in
/-- Flipping a single bit of a weight-4 code yields weight 3 or 5, so
no single-bit perturbation of a valid code is itself valid. -/
theorem check_bits_flip_invalid :
    ∀ c : Fin 128, check_bits c.val = true →
      ∀ j : Fin 7, check_bits (c.val ^^^ (1 <<< j.val)) = false := by decide

theorem slice7_left (rho rest : List Int) (hrl : rho.length = 7) :
    slice7 (rho ++ rest) 0 = rho := by
  rw [slice7, List.drop_zero, List.take_left' hrl]

theorem slice7_middle (front alpha rest : List Int) (hfl : front.length = 35)
    (hal : alpha.length = 7) :
    slice7 (front ++ (alpha ++ rest)) 35 = alpha := by
  rw [slice7, List.drop_left' hfl, List.take_left' hal]

/-- Claim C5, counterexample: take the valid code `c = 0x66` (the REP
control code) with its bit-0 perturbation `0x67` at the ALPHA window
and a correct REP copy of `c` 35 bits earlier.  The combiner returns
0 and decodes nothing (the REP match is treated as a phase marker), so
it does not decode `c` as the claim requires for every valid code. -/
theorem process_bytes_rep_marker_cex :
    check_bits code_rep = true ∧
    bytes_to_code (slice7 ([-1, 1, 1, -1, -1, 1, 1] ++ List.replicate 28 0 ++
      [1, 1, 1, -1, -1, 1, 1]) 0) = code_rep ∧
    bytes_to_code (slice7 ([-1, 1, 1, -1, -1, 1, 1] ++ List.replicate 28 0 ++
      [1, 1, 1, -1, -1, 1, 1]) 35) = code_rep ^^^ (1 <<< 0) ∧
    (process_bytes ([-1, 1, 1, -1, -1, 1, 1] ++ List.replicate 28 0 ++
      [1, 1, 1, -1, -1, 1, 1]) 35).decoded = none ∧
    (process_bytes ([-1, 1, 1, -1, -1, 1, 1] ++ List.replicate 28 0 ++
      [1, 1, 1, -1, -1, 1, 1]) 35).success = 0 := by decide

/-- Claim C5, amended: for every valid 7-bit code `c` other than the
REP control code 0x66, every single-bit perturbation of `c` at the
ALPHA position with the matching REP copy of `c` received correctly 35
bits earlier is recovered: the combiner substitutes and decodes
exactly `c` (success 0), leaving the buffer untouched. -/
theorem process_bytes_bitflip_recovery (rho pad alpha : List Int) (c : Nat) (j : Fin 7)
    (hrl : rho.length = 7) (hpl : pad.length = 28) (hal : alpha.length = 7)
    (hcv : check_bits c = true) (hcr : c ≠ code_rep)
    (hrho : bytes_to_code rho = c)
    (halpha : bytes_to_code alpha = c ^^^ (1 <<< j.val)) :
    process_bytes (rho ++ pad ++ alpha) 35 = ⟨0, some c, rho ++ pad ++ alpha⟩ := by
  have hs0 : slice7 (rho ++ pad ++ alpha) 0 = rho := by
    rw [List.append_assoc]
    exact slice7_left rho (pad ++ alpha) hrl
  have hs35 : slice7 (rho ++ pad ++ alpha) 35 = alpha := by
    have : rho ++ pad ++ alpha = (rho ++ pad) ++ (alpha ++ []) := by simp
    rw [this]
    exact slice7_middle (rho ++ pad) alpha [] (by simp [hrl, hpl]) hal
  have hc128 : c < 128 := hrho ▸ bytes_to_code_lt rho
  have hinv : check_bits (c ^^^ (1 <<< j.val)) = false := check_bits_flip_invalid ⟨c, hc128⟩ hcv j
  have hrep : bytes_to_code (slice7 (rho ++ pad ++ alpha) (35 - 35)) = c := by
    rw [show (35 : Nat) - 35 = 0 from rfl, hs0, hrho]
  simp only [process_bytes]
  rw [if_neg (by rw [hs35, halpha, hinv]; exact Bool.false_ne_true),
    if_neg (by omega), if_pos (by rw [hrep]; exact hcv), if_neg (by rw [hrep]; exact hcr),
    hrep]

/-- Claim C5, witness for the amended theorem: recovery of the letter
code 0x47 from its bit-0 perturbation 0x46. -/
theorem process_bytes_bitflip_recovery_witness :
    process_bytes ([1, 1, 1, -1, -1, -1, 1] ++ List.replicate 28 0 ++
      [-1, 1, 1, -1, -1, -1, 1]) 35 =
      ⟨0, some 0x47, [1, 1, 1, -1, -1, -1, 1] ++ List.replicate 28 0 ++
        [-1, 1, 1, -1, -1, -1, 1]⟩ :=
  process_bytes_bitflip_recovery [1, 1, 1, -1, -1, -1, 1] (List.replicate 28 0)
    [-1, 1, 1, -1, -1, -1, 1] 0x47 ⟨0, by decide⟩ rfl (by decide) rfl (by decide)
    (by decide) (by decide) (by decide)

/-! ### find_alpha_characters (lines 617-675)

The outer loop tries the 14 candidate offsets 35..48; the inner loop
walks the buffer from `offset` in steps of 7 while `i < limit` with
`limit = m_bit_values.size() - 7`, keeping a `(score, reps)` pair.
`walk7 offset limit` enumerates those loop indices. -/

def walk7 (offset limit : Nat) : List Nat :=
  (List.range ((limit - offset + 6) / 7)).map (fun k => offset + 7 * k)

/-- Body of the inner loop of `find_alpha_characters`: on a valid
slot, `score++`; a self-match of the ALPHA/REP control codes resets
the score; a self-match of any other code counts a rep; an ALPHA code
whose preceding slot (7 bits earlier) packs to REP also counts a
rep. -/
def scan_step (buf : List Int) (sr : Nat × Nat) (i : Nat) : Nat × Nat :=
  if valid_char_at (slice7 buf i) then
    let code := bytes_to_code (slice7 buf i)
    let rep := bytes_to_code (slice7 buf (i - 35))
    if code = rep then
      if code = code_alpha ∨ code = code_rep then (0, sr.2)
      else (sr.1 + 1, sr.2 + 1)
    else if code = code_alpha then
      if bytes_to_code (slice7 buf (i - 7)) = code_rep then (sr.1 + 1, sr.2 + 1)
      else (sr.1 + 1, sr.2)
    else (sr.1 + 1, sr.2)
  else sr

def find_alpha_characters (buf : List Int) : Int :=
  let limit := buf.length - 7
  let best :=
    (List.range 14).foldl
      (fun (best : Nat × Int) k =>
        let offset := 35 + k
        let sr := (walk7 offset limit).foldl (scan_step buf) (0, 0)
        if 3 ≤ sr.2 ∧ best.1 < sr.1 + sr.2 then (sr.1 + sr.2, (offset : Int)) else best)
      (0, 0)
  if best.1 > 8 then best.2 else -1

/-- A slot that the source's rep counter accepts: either a non-control
self-match with the copy 35 bits earlier, or an ALPHA slot (without
self-match) whose predecessor packs to REP. -/
def rep_slot (buf : List Int) (i : Nat) : Bool :=
  decide (valid_char_at (slice7 buf i) = true ∧
    ((bytes_to_code (slice7 buf i) = bytes_to_code (slice7 buf (i - 35)) ∧
      ¬(bytes_to_code (slice7 buf i) = code_alpha ∨ bytes_to_code (slice7 buf i) = code_rep)) ∨
     (¬(bytes_to_code (slice7 buf i) = bytes_to_code (slice7 buf (i - 35))) ∧
      bytes_to_code (slice7 buf i) = code_alpha ∧
      bytes_to_code (slice7 buf (i - 7)) = code_rep)))

/-- A matched-REP slot as claim C3 words it: a valid slot whose code
equals its 35-bit-earlier copy and is not a control code. -/
def rep_slot_claim (buf : List Int) (i : Nat) : Bool :=
  decide (valid_char_at (slice7 buf i) = true ∧
    bytes_to_code (slice7 buf i) = bytes_to_code (slice7 buf (i - 35)) ∧
    ¬(bytes_to_code (slice7 buf i) = code_alpha ∨ bytes_to_code (slice7 buf i) = code_rep))

/-- Score evolution as claim C3 words it: one point per valid slot,
reset to 0 on an ALPHA/REP self-match. -/
def score_step_claim (buf : List Int) (sc : Nat) (i : Nat) : Nat :=
  if valid_char_at (slice7 buf i) then
    if bytes_to_code (slice7 buf i) = bytes_to_code (slice7 buf (i - 35)) ∧
        (bytes_to_code (slice7 buf i) = code_alpha ∨ bytes_to_code (slice7 buf i) = code_rep) then 0
    else sc + 1
  else sc

def score_claim (buf : List Int) (offset limit : Nat) : Nat :=
  (walk7 offset limit).foldl (score_step_claim buf) 0

def reps_claim (buf : List Int) (offset limit : Nat) : Nat :=
  (walk7 offset limit).countP (rep_slot_claim buf)

def reps_amended (buf : List Int) (offset limit : Nat) : Nat :=
  (walk7 offset limit).countP (rep_slot buf)

/-- `find_alpha_characters` as claim C3 words it: reps count only
self-matches of the 35-bit-earlier copy. -/
def find_alpha_claim (buf : List Int) : Int :=
  let limit := buf.length - 7
  let best :=
    (List.range 14).foldl
      (fun (best : Nat × Int) k =>
        let offset := 35 + k
        if 3 ≤ reps_claim buf offset limit ∧
            best.1 < score_claim buf offset limit + reps_claim buf offset limit then
          (score_claim buf offset limit + reps_claim buf offset limit, (offset : Int))
        else best)
      (0, 0)
  if best.1 > 8 then best.2 else -1

/-- The amended selection: reps additionally count ALPHA slots whose
preceding slot packs to REP. -/
def find_alpha_amended (buf : List Int) : Int :=
  let limit := buf.length - 7
  let best :=
    (List.range 14).foldl
      (fun (best : Nat × Int) k =>
        let offset := 35 + k
        if 3 ≤ reps_amended buf offset limit ∧
            best.1 < score_claim buf offset limit + reps_amended buf offset limit then
          (score_claim buf offset limit + reps_amended buf offset limit, (offset : Int))
        else best)
      (0, 0)
  if best.1 > 8 then best.2 else -1

theorem scan_step_eq (buf : List Int) (s r : Nat) (i : Nat) :
    scan_step buf (s, r) i =
      (score_step_claim buf s i, r + if rep_slot buf i then 1 else 0) := by
  by_cases h1 : valid_char_at (slice7 buf i) = true
  · by_cases h2 : bytes_to_code (slice7 buf i) = bytes_to_code (slice7 buf (i - 35))
    · by_cases h3 : bytes_to_code (slice7 buf i) = code_alpha ∨
          bytes_to_code (slice7 buf i) = code_rep
      · rw [h2] at h3
        rcases h3 with h3 | h3 <;>
          simp [scan_step, score_step_claim, rep_slot, h1, h2, h3]
      · rw [h2] at h3
        simp [scan_step, score_step_claim, rep_slot, h1, h2, h3, not_or] at h3 ⊢
    · by_cases h4 : bytes_to_code (slice7 buf i) = code_alpha
      · rw [h4] at h2
        by_cases h5 : bytes_to_code (slice7 buf (i - 7)) = code_rep
        · simp [scan_step, score_step_claim, rep_slot, h1, h2, h4, h5]
        · simp [scan_step, score_step_claim, rep_slot, h1, h2, h4, h5]
      · simp [scan_step, score_step_claim, rep_slot, h1, h2, h4]
  · simp [scan_step, score_step_claim, rep_slot, h1]

theorem scan_decomp (buf : List Int) :
    ∀ (l : List Nat) (s r : Nat),
      l.foldl (scan_step buf) (s, r) =
        (l.foldl (score_step_claim buf) s, r + l.countP (rep_slot buf)) := by
  intro l
  induction l with
  | nil => intro s r; simp
  | cons i l ih =>
    intro s r
    rw [List.foldl_cons, List.foldl_cons, scan_step_eq, ih, List.countP_cons]
    simp only [Prod.mk.injEq, true_and]
    by_cases h : rep_slot buf i <;> simp [h] <;> omega

/-- Claim C3, amended: `find_alpha_characters` examines offsets 35..48
and selects by score + reps with reps ≥ 3 and best score > 8 — where
reps counts, besides the non-control self-matches of the 35-bit-earlier
copy that the claim describes, also ALPHA slots whose preceding slot
(7 bits earlier) packs to the REP control code. -/
theorem find_alpha_characters_eq_amended (buf : List Int) :
    find_alpha_characters buf = find_alpha_amended buf := by
  unfold find_alpha_characters find_alpha_amended
  simp only [scan_decomp buf, score_claim, reps_amended, Nat.zero_add]

def fa_demo_buf : List Int :=
  [1, 1, 1, -1, -1, -1, 1, -1, -1, -1, -1, -1, -1, -1, -1, -1, -1, -1, -1, -1, -1,
   1, 1, -1, 1, -1, -1, 1, -1, -1, -1, -1, -1, -1, -1, 1, 1, 1, -1, -1, -1, 1,
   -1, 1, 1, -1, -1, 1, 1, 1, 1, 1, 1, -1, -1, -1, 1, 1, -1, 1, -1, -1, 1, 1,
   -1, 1, 1, -1, -1, 1, 1, 1, -1, 1, -1, -1, 1, 1, 1, 1, -1, -1, -1, 1, 1, -1,
   1, -1, 1, -1, 1, 1, -1, 1, 1, -1, 1, -1, -1, -1]

/-- Claim C3, counterexample: on `fa_demo_buf` (100 soft bits) offset
35 carries 9 valid slots, two non-control self-matches, and one ALPHA
slot preceded by a REP slot.  The source counts reps = 3 and returns
35; counting only the self-matches described by the claim gives
reps = 2 < 3, so the claim's selection returns −1. -/
theorem find_alpha_characters_cex :
    find_alpha_characters fa_demo_buf = 35 ∧ find_alpha_claim fa_demo_buf = -1 := by
  constructor
  · decide
  · decide

/-! ### CCIR 476 glyph tables (lines 1019-1041) and
code_to_char (lines 1085-1092); `'_'` marks an undefined entry. -/

def code_to_ltrs : List Char :=
  ['_', '_', '_', '_', '_', '_', '_', '_', '_', '_', '_', '_', '_', '_', '_', '_',
   '_', '_', '_', '_', '_', '_', '_', 'J', '_', '_', '_', 'F', '_', 'C', 'K', '_',
   '_', '_', '_', '_', '_', '_', '_', 'W', '_', '_', '_', 'Y', '_', 'P', 'Q', '_',
   '_', '_', '_', '_', '_', 'G', '_', '_', '_', 'M', 'X', '_', 'V', '_', '_', '_',
   '_', '_', '_', '_', '_', '_', '_', 'A', '_', '_', '_', 'S', '_', 'I', 'U', '_',
   '_', '_', '_', 'D', '_', 'R', 'E', '_', '_', 'N', '_', '_', ' ', '_', '_', '_',
   '_', '_', '_', 'Z', '_', 'L', '_', '_', '_', 'H', '_', '_', '\n', '_', '_', '_',
   '_', 'O', 'B', '_', 'T', '_', '_', '_', '\r', '_', '_', '_', '_', '_', '_', '_']

def code_to_figs : List Char :=
  ['_', '_', '_', '_', '_', '_', '_', '_', '_', '_', '_', '_', '_', '_', '_', '_',
   '_', '_', '_', '_', '_', '_', '_', '\'', '_', '_', '_', '!', '_', ':', '(', '_',
   '_', '_', '_', '_', '_', '_', '_', '2', '_', '_', '_', '6', '_', '0', '1', '_',
   '_', '_', '_', '_', '_', '&', '_', '_', '_', '.', '/', '_', ';', '_', '_', '_',
   '_', '_', '_', '_', '_', '_', '_', '-', '_', '_', '_', '\x07', '_', '8', '7', '_',
   '_', '_', '_', '$', '_', '4', '3', '_', '_', ',', '_', '_', ' ', '_', '_', '_',
   '_', '_', '_', '"', '_', ')', '_', '_', '_', '#', '_', '_', '\n', '_', '_', '_',
   '_', '9', '?', '_', '5', '_', '_', '_', '\r', '_', '_', '_', '_', '_', '_', '_']

/-- `code_to_char`: look the code up in the active table; undefined
entries return the negated code. -/
def code_to_char (code : Nat) (shift : Bool) : Int :=
  let target := if shift then code_to_figs else code_to_ltrs
  if target.getD code '_' ≠ '_' then ((target.getD code '_').toNat : Int)
  else -(code : Int)

/-! ### process_char (lines 772-809) and filter_print (lines 811-818)

`process_char`'s `static int last_char` is a function-static variable,
i.e. a single process-wide cell shared by every `navtex_rx` instance;
it is therefore threaded explicitly.  The per-instance fields touched
by `process_char` are `m_shift` and `m_alpha_phase`; an emitted
character (via `filter_print` / `put_rx_char`) is returned as
`Option Int`. -/

structure CharInst where
  shift : Bool
  alpha_phase : Bool
deriving DecidableEq

def filter_print (c : Int) : Option Int :=
  if c = (char_bell : Int) then some 39
  else if c ≠ -1 ∧ c ≠ 13 ∧ c ≠ (code_alpha : Int) ∧ c ≠ (code_rep : Int) then some c
  else none

def process_char (last_char : Int) (inst : CharInst) (chr : Nat) :
    Int × CharInst × Option Int :=
  if chr = code_rep then
    ((chr : Int),
      { inst with alpha_phase := if last_char = (code_rep : Int) then false else inst.alpha_phase },
      none)
  else if chr = code_alpha then ((chr : Int), inst, none)
  else if chr = code_beta then ((chr : Int), inst, none)
  else if chr = code_char32 then ((chr : Int), inst, none)
  else if chr = code_ltrs then ((chr : Int), { inst with shift := false }, none)
  else if chr = code_figs then ((chr : Int), { inst with shift := true }, none)
  else
    let c := code_to_char chr inst.shift
    if c < 0 then (c, inst, none)
    else (c, inst, filter_print c)

/-! ### handle_bit_value (lines 557-596): the per-pulse decoder step -/

inductive MState
  | SYNC_SETUP
  | SYNC
  | READ_DATA
deriving DecidableEq

structure NavState where
  st : MState
  error_count : Int
  shift : Bool
  alpha_phase : Bool
  bit_values : List Int
  bit_cursor : Nat
  last_char : Int
  emitted : List Int
deriving DecidableEq

/-- Lines 562-567: shift the bit FIFO left by one, append the new
accumulator value, and decrement the cursor (clamped at 0). -/
def shifted (s : NavState) (accumulator : Int) : NavState :=
  { s with
    bit_values := s.bit_values.drop 1 ++ [accumulator],
    bit_cursor := if s.bit_cursor > 0 then s.bit_cursor - 1 else s.bit_cursor }

/-- `process_bytes` followed by the `process_char` call the source
makes on a decoded code (the `decode:` label). -/
def process_bytes_char (s : NavState) : Int × NavState :=
  let r := process_bytes s.bit_values s.bit_cursor
  let s1 := { s with bit_values := r.buf }
  match r.decoded with
  | none => (r.success, s1)
  | some code =>
    let pc := process_char s1.last_char ⟨s1.shift, s1.alpha_phase⟩ code
    (r.success,
      { s1 with
        last_char := pc.1,
        shift := pc.2.1.shift,
        alpha_phase := pc.2.1.alpha_phase,
        emitted := s1.emitted ++ pc.2.2.toList })

def handle_bit_value (s : NavState) (accumulator : Int) : NavState :=
  let buffersize := s.bit_values.length
  let s1 := shifted s accumulator
  let s2 :=
    if s1.st = MState.SYNC then
      let offset := find_alpha_characters s1.bit_values
      if 0 ≤ offset then
        { s1 with st := MState.READ_DATA, bit_cursor := offset.toNat, alpha_phase := true }
      else { s1 with st := MState.SYNC_SETUP }
    else s1
  if s2.st = MState.READ_DATA then
    if s2.bit_cursor < buffersize - 7 then
      let s3 : NavState :=
        if s2.alpha_phase then
          let rs := process_bytes_char s2
          let s4 : NavState := { rs.2 with error_count := rs.2.error_count - rs.1 }
          let s5 : NavState :=
            if s4.error_count > 5 then { s4 with st := MState.SYNC_SETUP } else s4
          if s5.error_count < 0 then { s5 with error_count := 0 } else s5
        else s2
      { s3 with alpha_phase := !s3.alpha_phase, bit_cursor := s3.bit_cursor + 7 }
    else s2
  else s2

theorem process_bytes_char_fields (t : NavState) :
    (process_bytes_char t).1 = (process_bytes t.bit_values t.bit_cursor).success ∧
    (process_bytes_char t).2.error_count = t.error_count ∧
    (process_bytes_char t).2.st = t.st ∧
    (process_bytes_char t).2.bit_cursor = t.bit_cursor := by
  rcases hd : (process_bytes t.bit_values t.bit_cursor).decoded with _ | code <;>
    simp [process_bytes_char, hd]

/-- Claim C2, amended: in READ_DATA, each pulse-edge event first
shifts the FIFO and decrements the cursor; a 7-bit slot is then
processed only while `bit_cursor` is strictly below
`len(BitBuffer) − 7` (the source compares with `<`, so the slot at
exactly `len − 7` is not processed).  When alpha_phase holds, the FEC
combiner's return value is subtracted from error_count, the state
machine moves to SYNC_SETUP exactly when the new error_count exceeds
5, and error_count is floored at 0; alpha_phase is then toggled and
the cursor advances by 7. -/
theorem handle_bit_value_read_data (s : NavState) (a : Int)
    (hst : s.st = MState.READ_DATA) :
    ((shifted s a).bit_cursor < s.bit_values.length - 7 →
      (s.alpha_phase = true →
        (handle_bit_value s a).error_count =
          max 0 (s.error_count -
            (process_bytes (shifted s a).bit_values (shifted s a).bit_cursor).success) ∧
        (handle_bit_value s a).st =
          (if 5 < s.error_count -
              (process_bytes (shifted s a).bit_values (shifted s a).bit_cursor).success
            then MState.SYNC_SETUP else MState.READ_DATA) ∧
        (handle_bit_value s a).alpha_phase =
          !((process_bytes_char (shifted s a)).2.alpha_phase) ∧
        (handle_bit_value s a).bit_cursor = (shifted s a).bit_cursor + 7) ∧
      (s.alpha_phase = false →
        handle_bit_value s a =
          { (shifted s a) with
            alpha_phase := true,
            bit_cursor := (shifted s a).bit_cursor + 7 })) ∧
    (¬((shifted s a).bit_cursor < s.bit_values.length - 7) →
      handle_bit_value s a = shifted s a) := by
  have h1st : (shifted s a).st = MState.READ_DATA := hst
  have hnsync : ¬((shifted s a).st = MState.SYNC) := by rw [h1st]; simp
  obtain ⟨hf1, hf2, hf3, hf4⟩ := process_bytes_char_fields (shifted s a)
  have hse : (shifted s a).error_count = s.error_count := rfl
  have hsa : (shifted s a).alpha_phase = s.alpha_phase := rfl
  refine ⟨fun hcur => ⟨fun halpha => ?_, fun halpha => ?_⟩, fun hcur => ?_⟩
  · have halpha' : (shifted s a).alpha_phase = true := by rw [hsa, halpha]
    simp only [handle_bit_value]
    rw [if_neg hnsync, if_pos h1st, if_pos hcur, if_pos halpha', hf1, hf2, hse]
    by_cases he5 : s.error_count -
        (process_bytes (shifted s a).bit_values (shifted s a).bit_cursor).success > 5
    · have he0 : ¬(s.error_count -
          (process_bytes (shifted s a).bit_values (shifted s a).bit_cursor).success < 0) := by
        omega
      rw [if_pos he5, if_neg he0]
      dsimp only
      refine ⟨by omega, by rw [if_pos he5], rfl, by rw [hf4]⟩
    · rw [if_neg he5]
      by_cases he0 : s.error_count -
          (process_bytes (shifted s a).bit_values (shifted s a).bit_cursor).success < 0
      · rw [if_pos he0]
        dsimp only
        refine ⟨by omega, by rw [if_neg (by omega), hf3, h1st], rfl, by rw [hf4]⟩
      · rw [if_neg he0]
        dsimp only
        refine ⟨by omega, by rw [if_neg (by omega), hf3, h1st], rfl, by rw [hf4]⟩
  · have halpha' : ¬((shifted s a).alpha_phase = true) := by
      rw [hsa, halpha]; simp
    simp only [handle_bit_value]
    rw [if_neg hnsync, if_pos h1st, if_pos hcur, if_neg halpha']
    have hb : (!(shifted s a).alpha_phase) = true := by rw [hsa, halpha]; rfl
    rw [hb]
  · simp only [handle_bit_value]
    rw [if_neg hnsync, if_pos h1st, if_neg hcur]

def hbv_boundary_state : NavState :=
  ⟨MState.READ_DATA, 0, false, true, List.replicate 100 0, 94, 0, []⟩

/-- Claim C2, counterexample: in READ_DATA with a 100-bit buffer and
incoming cursor 94, the pulse-edge event decrements the cursor to
exactly `len − 7 = 93`.  The claim's condition `bit_cursor ≤ len − 7`
would process the slot (toggling alpha_phase and advancing the cursor
to 100), but the source's strict `<` skips it: the cursor stays at 93
and alpha_phase is untouched. -/
theorem handle_bit_value_boundary_cex :
    (handle_bit_value hbv_boundary_state 0).bit_cursor = 93 ∧
    (handle_bit_value hbv_boundary_state 0).alpha_phase = true ∧
    (handle_bit_value hbv_boundary_state 0).error_count = 0 ∧
    (handle_bit_value hbv_boundary_state 0).st = MState.READ_DATA ∧
    hbv_boundary_state.bit_values.length = 100 ∧
    hbv_boundary_state.bit_cursor = 94 := by
  refine ⟨?_, ?_, ?_, ?_, by decide, by decide⟩ <;> decide

def hbv_alpha_state : NavState :=
  ⟨MState.READ_DATA, 0, false, true, List.replicate 100 1, 40, 0, []⟩

/-- Claim C2, witness for the amended theorem: a READ_DATA state in
alpha phase with cursor 40 processes the slot at cursor 39. -/
theorem handle_bit_value_read_data_witness :
    (handle_bit_value hbv_alpha_state 1).error_count =
      max 0 (hbv_alpha_state.error_count -
        (process_bytes (shifted hbv_alpha_state 1).bit_values
          (shifted hbv_alpha_state 1).bit_cursor).success) ∧
    (handle_bit_value hbv_alpha_state 1).st =
      (if 5 < hbv_alpha_state.error_count -
          (process_bytes (shifted hbv_alpha_state 1).bit_values
            (shifted hbv_alpha_state 1).bit_cursor).success
        then MState.SYNC_SETUP else MState.READ_DATA) ∧
    (handle_bit_value hbv_alpha_state 1).alpha_phase =
      !((process_bytes_char (shifted hbv_alpha_state 1)).2.alpha_phase) ∧
    (handle_bit_value hbv_alpha_state 1).bit_cursor =
      (shifted hbv_alpha_state 1).bit_cursor + 7 :=
  ((handle_bit_value_read_data hbv_alpha_state 1 rfl).1 (by decide)).1 (by decide)

/-! ### Message-timeout subsystem: process_timeout (lines 308-318),
flush_message (lines 321-334), display_message (lines 336-350)

`m_time_sec` is assigned `m_sample_count / m_sample_rate` (line 271),
an `int / int` division, so it only ever holds whole seconds; it is
modelled as `Int`.  `display_message` always emits (the minimum logged
size is 0); the string handed to `put_received_message` is recorded in
`out`.  `advance` models the passage of samples with no decoded
characters: the per-sample loop only updates `m_time_sec`; the message
fields change solely when a character is decoded. -/

structure MsgState where
  only_sitor_b : Bool
  time_sec : Int
  message_time : Int
  header_found : Bool
  curr_msg : String
  out : List String
deriving DecidableEq

def display_message (s : MsgState) (alt : String) : MsgState :=
  { s with out := s.out ++ [alt] }

def flush_message (s : MsgState) (extra_info : String) : MsgState :=
  let s1 :=
    if s.header_found then
      display_message { s with header_found := false } (s.curr_msg ++ extra_info)
    else
      display_message s ("[Lost header]:" ++ s.curr_msg ++ extra_info)
  { s1 with curr_msg := "", message_time := s1.time_sec }

def process_timeout (s : MsgState) : MsgState :=
  if s.only_sitor_b then s
  else if s.time_sec - s.message_time > 600 then flush_message s ":<TIMEOUT>"
  else s

def advance (s : MsgState) (t : Int) : MsgState := { s with time_sec := t }

def timeout_demo_state : MsgState := ⟨false, 0, 0, false, "", []⟩

/-- Claim C7, counterexample: with no header and no activity at all,
1202 s of sample-time silence produce two `:<TIMEOUT>` flushes — one
at 601 s and a second at 1202 s — because the flush resets the
last-activity timestamp and the 600-s window restarts.  This refutes
the claim's "no second timeout flush follows without new activity". -/
theorem process_timeout_second_flush_cex :
    (process_timeout (advance timeout_demo_state 601)).out =
      ["[Lost header]::<TIMEOUT>"] ∧
    (process_timeout (advance (process_timeout (advance timeout_demo_state 601)) 1202)).out =
      ["[Lost header]::<TIMEOUT>", "[Lost header]::<TIMEOUT>"] := by
  constructor
  · decide
  · decide

/-- Claim C7, amended: the timeout test (run at the start of every
`process_data` call, before any sample is consumed) compares
sample-clock time, not wall clock.  When `only_sitor_b` is false, no
header has been seen and the sample time since the last activity
exceeds 600 s, exactly one flush carrying `:<TIMEOUT>` is emitted and
the last-activity timestamp is reset to the current sample time, so no
further timeout flush occurs until sample time advances more than
600 s beyond the flush; after each further full 600-s window of
silence one more timeout flush is emitted. -/
theorem flush_message_fields (s : MsgState) (e : String) :
    (flush_message s e).message_time = s.time_sec ∧
    (flush_message s e).curr_msg = "" ∧
    (flush_message s e).time_sec = s.time_sec ∧
    (flush_message s e).only_sitor_b = s.only_sitor_b ∧
    (flush_message s e).header_found = false ∧
    (s.header_found = false →
      (flush_message s e).out = s.out ++ ["[Lost header]:" ++ s.curr_msg ++ e]) := by
  unfold flush_message display_message
  by_cases h : s.header_found = true
  · simp [h]
  · simp [h]

theorem process_timeout_boundary (s : MsgState) (hb : s.only_sitor_b = false)
    (hh : s.header_found = false) (ht : s.time_sec - s.message_time > 600) :
    (process_timeout s).out = s.out ++ ["[Lost header]:" ++ s.curr_msg ++ ":<TIMEOUT>"] ∧
    (process_timeout s).message_time = s.time_sec ∧
    (process_timeout s).curr_msg = "" ∧
    (process_timeout s).header_found = false ∧
    (∀ t, t - s.time_sec ≤ 600 →
      process_timeout (advance (process_timeout s) t) = advance (process_timeout s) t) ∧
    (∀ t, t - s.time_sec > 600 →
      (process_timeout (advance (process_timeout s) t)).out =
        (process_timeout s).out ++ ["[Lost header]:" ++ "" ++ ":<TIMEOUT>"]) := by
  have hflush : process_timeout s = flush_message s ":<TIMEOUT>" := by
    rw [process_timeout, if_neg (by rw [hb]; simp), if_pos ht]
  obtain ⟨hmt0, hcm0, hts0, hsb0, hhf0, hout0⟩ := flush_message_fields s ":<TIMEOUT>"
  have hmt : (process_timeout s).message_time = s.time_sec := by rw [hflush]; exact hmt0
  have hcm : (process_timeout s).curr_msg = "" := by rw [hflush]; exact hcm0
  have hhf : (process_timeout s).header_found = false := by rw [hflush]; exact hhf0
  have hsb : (process_timeout s).only_sitor_b = false := by rw [hflush, hsb0]; exact hb
  have hout : (process_timeout s).out =
      s.out ++ ["[Lost header]:" ++ s.curr_msg ++ ":<TIMEOUT>"] := by
    rw [hflush]; exact hout0 hh
  have hasb : ∀ t : Int, (advance (process_timeout s) t).only_sitor_b = false := fun _ => hsb
  have hamt : ∀ t : Int, (advance (process_timeout s) t).message_time = s.time_sec :=
    fun _ => hmt
  have hats : ∀ t : Int, (advance (process_timeout s) t).time_sec = t := fun _ => rfl
  refine ⟨hout, hmt, hcm, hhf, ?_, ?_⟩
  · intro t htle
    have hc1 : ¬((advance (process_timeout s) t).only_sitor_b = true) := by
      rw [hasb t]; simp
    have hc2 : ¬((advance (process_timeout s) t).time_sec -
        (advance (process_timeout s) t).message_time > 600) := by
      have h2 := hamt t
      have h3 := hats t
      omega
    rw [process_timeout, if_neg hc1, if_neg hc2]
  · intro t htgt
    have hc1 : ¬((advance (process_timeout s) t).only_sitor_b = true) := by
      rw [hasb t]; simp
    have hcond : (advance (process_timeout s) t).time_sec -
        (advance (process_timeout s) t).message_time > 600 := by
      have h2 := hamt t
      have h3 := hats t
      omega
    have hahf : (advance (process_timeout s) t).header_found = false := hhf
    have hacm : (advance (process_timeout s) t).curr_msg = "" := hcm
    have haout : (advance (process_timeout s) t).out = (process_timeout s).out := rfl
    obtain ⟨_, _, _, _, _, hout2⟩ := flush_message_fields (advance (process_timeout s) t)
      ":<TIMEOUT>"
    rw [process_timeout, if_neg hc1, if_pos hcond, hout2 hahf, haout, hacm]

/-- Claim C7, witness: a silent no-header state at sample time 601
with last activity at 0 triggers the flush and the reset. -/
theorem process_timeout_boundary_witness :
    (process_timeout ⟨false, 601, 0, false, "", []⟩).out =
      ([] : List String) ++ ["[Lost header]:" ++ "" ++ ":<TIMEOUT>"] ∧
    (process_timeout ⟨false, 601, 0, false, "", []⟩).message_time = 601 :=
  ⟨(process_timeout_boundary ⟨false, 601, 0, false, "", []⟩ rfl rfl (by decide)).1,
   (process_timeout_boundary ⟨false, 601, 0, false, "", []⟩ rfl rfl (by decide)).2.1⟩

/-! ### The constructor navtex_rx::navtex_rx (lines 207-260)

The constructor stores its arguments and initialises every field;
there is no parameter validation and no failure path of any kind (no
`InvalidConfig` type exists anywhere in the repository).  The C
`double` fields hold exact values at initialisation
(`m_baud_rate = 100`, `m_bit_sample_count = sample_rate * (1/100)`,
…); they are rendered as rationals.  The two `fftfilt` lowpass objects
live in the external fftfilt unit and carry no decoder-visible state,
so they are not modelled. -/

structure NavtexRx where
  m_sample_rate : Int
  m_only_sitor_b : Bool
  m_reverse : Bool
  m_center_frequency_f : Rat
  m_baud_rate : Rat
  m_bit_sample_count : Rat
  m_time_sec : Rat
  m_message_time : Rat
  m_header_found : Bool
  m_sample_count : Int
  m_early_accumulator : Rat
  m_prompt_accumulator : Rat
  m_late_accumulator : Rat
  m_next_early_event : Rat
  m_next_prompt_event : Rat
  m_next_late_event : Rat
  m_average_early_signal : Rat
  m_average_prompt_signal : Rat
  m_average_late_signal : Rat
  m_pulse_edge_event : Bool
  m_averaged_mark_state : Int
  m_state : MState
  m_error_count : Int
  m_shift : Bool
  m_alpha_phase : Bool
  m_bit_values : List Int
  m_bit_cursor : Int
deriving DecidableEq

def navtex_rx_init (sample_rate : Int) (only_sitor_b reverse : Bool) : NavtexRx :=
  let baud_rate : Rat := 100
  let bit_duration_seconds : Rat := 1 / baud_rate
  let bit_sample_count : Rat := sample_rate * bit_duration_seconds
  { m_sample_rate := sample_rate
    m_only_sitor_b := only_sitor_b
    m_reverse := reverse
    m_center_frequency_f := 1000
    m_baud_rate := baud_rate
    m_bit_sample_count := bit_sample_count
    m_time_sec := 0
    m_message_time := 0
    m_header_found := false
    m_sample_count := 0
    m_early_accumulator := 0
    m_prompt_accumulator := 0
    m_late_accumulator := 0
    m_next_early_event := 0
    m_next_prompt_event := bit_sample_count / 5
    m_next_late_event := bit_sample_count * 2 / 5
    m_average_early_signal := 0
    m_average_prompt_signal := 0
    m_average_late_signal := 0
    m_pulse_edge_event := false
    m_averaged_mark_state := 0
    m_state := MState.SYNC_SETUP
    m_error_count := 0
    m_shift := false
    m_alpha_phase := false
    m_bit_values := List.replicate 100 0
    m_bit_cursor := 0 }

/-- Claim C8, counterexample: constructing a decoder with
`sample_rate = -1 ≤ 0` does not fail — there is no validation and no
`InvalidConfig` error in the code; the constructor returns a normally
initialised state with the baud rate hard-coded to 100. -/
theorem navtex_rx_init_no_validation_cex :
    (navtex_rx_init (-1) false false).m_baud_rate = 100 ∧
    (navtex_rx_init (-1) false false).m_state = MState.SYNC_SETUP ∧
    (navtex_rx_init (-1) false false).m_error_count = 0 ∧
    (navtex_rx_init (-1) false false).m_sample_rate = -1 ∧
    (navtex_rx_init (-1) false false).m_bit_values = List.replicate 100 0 := by
  refine ⟨rfl, rfl, rfl, rfl, rfl⟩

/-- Claim C8, amended: construction never fails: for every
`sample_rate` (including values ≤ 0) and flag combination the
constructor is a total function yielding the initial state — baud rate
hard-coded to 100, state SYNC_SETUP, error count 0, a 100-entry zero
bit buffer — with no `InvalidConfig` (or any other) error path; the
embedded decoding pipeline consists of total functions, with no
failure-raising control flow. -/
theorem navtex_rx_init_total (sample_rate : Int) (osb rev : Bool) :
    (navtex_rx_init sample_rate osb rev).m_baud_rate = 100 ∧
    (navtex_rx_init sample_rate osb rev).m_state = MState.SYNC_SETUP ∧
    (navtex_rx_init sample_rate osb rev).m_error_count = 0 ∧
    (navtex_rx_init sample_rate osb rev).m_bit_values = List.replicate 100 0 ∧
    (navtex_rx_init sample_rate osb rev).m_sample_rate = sample_rate ∧
    (navtex_rx_init sample_rate osb rev).m_only_sitor_b = osb ∧
    (navtex_rx_init sample_rate osb rev).m_reverse = rev ∧
    (navtex_rx_init sample_rate osb rev).m_header_found = false ∧
    (navtex_rx_init sample_rate osb rev).m_bit_cursor = 0 :=
  ⟨rfl, rfl, rfl, rfl, rfl, rfl, rfl, rfl, rfl⟩

/-! ### Two instances sharing process_char's static (claim C9)

`process_char`'s `static int last_char` (line 773) is one
process-wide cell: every `navtex_rx` instance reads and writes the
same variable (likewise the static envelope/noise trackers in
`process_fft_output`, lines 372-373).  `run_two` dispatches a sequence
of decoded codes to two instances A and B through `process_char`,
threading the single shared `last_char`. -/

def run_two (g : Int) (ia ib : CharInst) : List (Bool × Nat) → Int × CharInst × CharInst
  | [] => (g, ia, ib)
  | (isA, chr) :: rest =>
    if isA then
      let pc := process_char g ia chr
      run_two pc.1 pc.2.1 ib rest
    else
      let pc := process_char g ib chr
      run_two pc.1 ia pc.2.1 rest

/-- Claim C9: instance A receives the same own-input sequence
`[0x66, 0x66]` (REP twice) in both runs.  Running A alone, the second
REP sees `last_char = REP` and A's rep/alpha resync fires
(`alpha_phase := false`).  Interleaving one call of instance B with
the ALPHA code 0x0f between A's two calls overwrites the shared
static `last_char`, and A's resync is suppressed (`alpha_phase` stays
true): a second instance's calls change the first instance's decoding
state, so the instances do share mutable state. -/
theorem process_char_shared_static :
    (run_two 0 ⟨false, true⟩ ⟨false, true⟩ [(true, 0x66), (true, 0x66)]).2.1.alpha_phase
      = false ∧
    (run_two 0 ⟨false, true⟩ ⟨false, true⟩
      [(true, 0x66), (false, 0x0f), (true, 0x66)]).2.1.alpha_phase = true := by
  constructor
  · decide
  · decide

end Navtex
